import Mathlib

/-!
Shallow embedding of the drum-machine step sequencer
(src/drum-machine/main.ts together with the audio-unlock shim).

Coordinates and audio parameters are modelled as exact rationals: every
numeric constant in the source (39, 19.5, 58.5, 1.5, 0.2, 0.4, 160, ...)
is exactly representable, so rational arithmetic agrees with the
program's floating-point arithmetic on all values that occur.

The audio context may be absent (the shim leaves the global undefined
when construction fails), so it is modelled as an `Option`; a method
call on the absent context is a thrown TypeError, modelled as
`Except.error`.
-/

namespace DrumMachine

/-- `BUTTON_SIZE = 39` from the source. -/
def BUTTON_SIZE : ℚ := 39

/-- `STEP_COUNT = 8` from the source. -/
def STEP_COUNT : Nat := 8

/-- `TEMPO = 300` from the source (interval period in milliseconds). -/
def TEMPO : Nat := 300

/-- `IPoint` from drum-machine.d.ts: a screen coordinate. -/
structure IPoint where
  x : ℚ
  y : ℚ
deriving DecidableEq, Repr

/-- The audio context, when construction succeeded: a current-time
reference and a lifecycle state string (running or suspended). -/
structure AudioCtx where
  currentTime : ℚ
  state : String
deriving DecidableEq, Repr

/-- An AudioParam: its plain value plus the scheduled automation
events recorded against it (setValueAtTime and
exponentialRampToValueAtTime calls, each a value-time pair). -/
structure AudioParam where
  value : ℚ
  setEvents : List (ℚ × ℚ)
  rampEvents : List (ℚ × ℚ)
deriving DecidableEq, Repr

/-- A freshly constructed AudioParam with the given default value. -/
def initialAudioParam (v : ℚ) : AudioParam :=
  { value := v, setEvents := [], rampEvents := [] }

/-- An oscillator node as configured by `createSineWave`. -/
structure Oscillator where
  waveType : String
  frequency : AudioParam
  startTime : ℚ
  stopTime : ℚ
deriving DecidableEq, Repr

/-- A gain node as configured by `createAmplifier`. -/
structure Amplifier where
  gain : AudioParam
deriving DecidableEq, Repr

/-- A web-audio node appearing in a chain. -/
inductive WebAudioNode where
  | oscillator (osc : Oscillator)
  | gain (amp : Amplifier)
  | destination
deriving DecidableEq, Repr

/-- `chain(soundNodes)`: connects node i to node i+1 for every
consecutive pair; the result is the list of connections made. -/
def chain : List WebAudioNode → List (WebAudioNode × WebAudioNode)
  | a :: b :: rest => (a, b) :: chain (b :: rest)
  | _ => []

/-- `createSineWave(audioContext, duration)`: calls
`audioContext.createOscillator()` (a TypeError when the context is
absent), sets type sine, starts now, stops after `duration` seconds. -/
def createSineWave (audioContext : Option AudioCtx) (duration : ℚ) :
    Except String Oscillator :=
  match audioContext with
  | none => Except.error "TypeError"
  | some ctx =>
    Except.ok
      { waveType := "sine"
        frequency := initialAudioParam 440
        startTime := ctx.currentTime
        stopTime := ctx.currentTime + duration }

/-- `rampDown(audioContext, value, startValue, duration)`: schedules
`setValueAtTime(startValue, now)` and
`exponentialRampToValueAtTime(0.01, now + duration)` on `value`;
reading `currentTime` on an absent context is a TypeError. -/
def rampDown (audioContext : Option AudioCtx) (value : AudioParam)
    (startValue duration : ℚ) : Except String AudioParam :=
  match audioContext with
  | none => Except.error "TypeError"
  | some ctx =>
    Except.ok
      { value with
        setEvents := value.setEvents ++ [(startValue, ctx.currentTime)]
        rampEvents := value.rampEvents ++ [(0.01, ctx.currentTime + duration)] }

/-- `createAmplifier(audioContext, startValue, duration)`: calls
`audioContext.createGain()` (a TypeError when the context is absent)
and ramps its gain down from `startValue`. -/
def createAmplifier (audioContext : Option AudioCtx)
    (startValue duration : ℚ) : Except String Amplifier :=
  match audioContext with
  | none => Except.error "TypeError"
  | some _ => do
    let amplifier : Amplifier := { gain := initialAudioParam 1 }
    let g ← rampDown audioContext amplifier.gain startValue duration
    pure { amplifier with gain := g }

/-- The trigger returned by `note(audioContext, frequency)`: invoking
it builds a 1-second sine wave at `frequency`, a 0.2-peak amplifier,
and chains them to the destination. The result is the list of
connections made, or the thrown error. -/
def note (audioContext : Option AudioCtx) (frequency : ℚ) :
    Except String (List (WebAudioNode × WebAudioNode)) := do
  let duration : ℚ := 1
  let sineWave ← createSineWave audioContext duration
  let sineWave :=
    { sineWave with frequency := { sineWave.frequency with value := frequency } }
  let amplifier ← createAmplifier audioContext 0.2 duration
  match audioContext with
  | none => Except.error "TypeError"
  | some _ =>
    pure (chain [WebAudioNode.oscillator sineWave, WebAudioNode.gain amplifier,
      WebAudioNode.destination])

/-- The trigger returned by `kick(audioContext)`: invoking it builds a
2-second sine wave whose frequency ramps down from 160, a 0.4-peak
amplifier, and chains them to the destination. -/
def kick (audioContext : Option AudioCtx) :
    Except String (List (WebAudioNode × WebAudioNode)) := do
  let duration : ℚ := 2
  let sineWave ← createSineWave audioContext duration
  let f ← rampDown audioContext sineWave.frequency 160 duration
  let sineWave := { sineWave with frequency := f }
  let amplifier ← createAmplifier audioContext 0.4 duration
  match audioContext with
  | none => Except.error "TypeError"
  | some _ =>
    pure (chain [WebAudioNode.oscillator sineWave, WebAudioNode.gain amplifier,
      WebAudioNode.destination])

/-- The voice bound to a track: the `note(AUDIO_CONTEXT, f)` or
`kick(AUDIO_CONTEXT)` closure, identified by its construction data. -/
inductive Sound where
  | note (frequency : ℚ)
  | kick
deriving DecidableEq, Repr

/-- Invoking a track's `playSound` trigger against the (possibly
absent) audio context. -/
def invokeTrigger (audioContext : Option AudioCtx) :
    Sound → Except String (List (WebAudioNode × WebAudioNode))
  | Sound.note f => note audioContext f
  | Sound.kick => kick audioContext

/-- `ISequencerTrack` from drum-machine.d.ts. -/
structure ISequencerTrack where
  steps : List Bool
  color : String
  playSound : Sound
deriving DecidableEq, Repr

/-- `ISequencerState` from drum-machine.d.ts. -/
structure ISequencerState where
  step : Nat
  tracks : List ISequencerTrack
  paused : Bool
deriving DecidableEq, Repr

/-- `createTrack(color, playSound)`: a track with `STEP_COUNT` steps
all initialized to false. -/
def createTrack (color : String) (playSound : Sound) : ISequencerTrack :=
  { steps := List.replicate STEP_COUNT false
    color := color
    playSound := playSound }

/-- `SEQUENCER_STATE`: the initial state constructed at startup. -/
def SEQUENCER_STATE : ISequencerState :=
  { step := 0
    tracks :=
      [createTrack "gold" (Sound.note 880),
       createTrack "gold" (Sound.note 659),
       createTrack "gold" (Sound.note 587),
       createTrack "gold" (Sound.note 523),
       createTrack "gold" (Sound.note 440),
       createTrack "dodgerblue" Sound.kick]
    paused := true }

/-- `nextStep(sequencerState)`: a no-op when paused; otherwise
increments the step modulo `STEP_COUNT` and then invokes `playSound`
on every track whose steps entry at the new step is truthy, in track
list order. The second component is the ordered list of tracks whose
trigger was invoked. -/
def nextStep (sequencerState : ISequencerState) :
    ISequencerState × List ISequencerTrack :=
  if sequencerState.paused then (sequencerState, [])
  else
    let step := (sequencerState.step + 1) % STEP_COUNT
    ({ sequencerState with step := step },
     sequencerState.tracks.filter (fun track => track.steps.getD step false))

/-- `n` consecutive clock ticks: the final state and the concatenated
trigger invocations, in order. -/
def nextStepN : Nat → ISequencerState → ISequencerState × List ISequencerTrack
  | 0, s => (s, [])
  | Nat.succ n, s =>
    let r := nextStep s
    let r2 := nextStepN n r.1
    (r2.1, r.2 ++ r2.2)

/-- `getButtonPosition(column, row)`: the top-left pixel coordinate of
the button at that grid cell. -/
def getButtonPosition (column row : Nat) : IPoint :=
  { x := BUTTON_SIZE / 2 + column * BUTTON_SIZE * 1.5
    y := BUTTON_SIZE / 2 + row * BUTTON_SIZE * 1.5 }

/-- `pointWithinButton(point, buttonPoint)`: inside the button's
bounding box, inclusive at all four edges. -/
def pointWithinButton (point buttonPoint : IPoint) : Bool :=
  !(decide (point.x < buttonPoint.x) ||
    decide (point.y < buttonPoint.y) ||
    decide (point.x > buttonPoint.x + BUTTON_SIZE) ||
    decide (point.y > buttonPoint.y + BUTTON_SIZE))

/-- `clear(sequencerState)`: sets every step of every track to false. -/
def clear (sequencerState : ISequencerState) : ISequencerState :=
  { sequencerState with
    tracks := sequencerState.tracks.map
      (fun track => { track with steps := track.steps.map (fun _ => false) }) }

/-- The play-bar hit threshold used by the click listener:
`BUTTON_SIZE * trackCount * 1.5 + BUTTON_SIZE / 2`. -/
def playBarThreshold (trackCount : Nat) : ℚ :=
  BUTTON_SIZE * trackCount * 1.5 + BUTTON_SIZE / 2

/-- The inner `track.steps.forEach((on, column) => ...)` loop of the
click listener: walks the steps of the track at `row` keeping the
running column index, toggling each step whose button contains the
pointer. -/
def toggleTrackSteps (mousePosition : IPoint) (row : Nat) :
    Nat → List Bool → List Bool
  | _, [] => []
  | column, stepOn :: rest =>
    (if pointWithinButton mousePosition (getButtonPosition column row)
     then !stepOn else stepOn) ::
      toggleTrackSteps mousePosition row (column + 1) rest

/-- The outer `tracks.forEach((track, row) => ...)` loop of the click
listener: walks the tracks keeping the running row index. -/
def toggleTracks (mousePosition : IPoint) :
    Nat → List ISequencerTrack → List ISequencerTrack
  | _, [] => []
  | row, track :: rest =>
    { track with steps := toggleTrackSteps mousePosition row 0 track.steps } ::
      toggleTracks mousePosition (row + 1) rest

/-- The canvas click listener: a click below the track listing toggles
paused and returns; otherwise every cell whose bounding box contains
the pointer has its step toggled. -/
def handleClick (mousePosition : IPoint) (s : ISequencerState) :
    ISequencerState :=
  if mousePosition.y > playBarThreshold s.tracks.length then
    { s with paused := !s.paused }
  else
    { s with tracks := toggleTracks mousePosition 0 s.tracks }

/-- The structural invariant of the sequencer state: the step index is
in range and every track has exactly `STEP_COUNT` steps. -/
def SequencerInvariant (s : ISequencerState) : Prop :=
  s.step < STEP_COUNT ∧ ∀ t ∈ s.tracks, t.steps.length = STEP_COUNT

instance (s : ISequencerState) : Decidable (SequencerInvariant s) := by
  unfold SequencerInvariant
  infer_instance

/-! ### Supporting lemmas -/

theorem pointWithinButton_iff (p b : IPoint) :
    pointWithinButton p b = true ↔
      b.x ≤ p.x ∧ b.y ≤ p.y ∧
        p.x ≤ b.x + BUTTON_SIZE ∧ p.y ≤ b.y + BUTTON_SIZE := by
  simp [pointWithinButton, not_lt, not_or, and_assoc]

theorem buttonIndex_le {t : ℚ} {a b : ℕ}
    (ha : BUTTON_SIZE / 2 + a * BUTTON_SIZE * 1.5 ≤ t)
    (hb : t ≤ BUTTON_SIZE / 2 + b * BUTTON_SIZE * 1.5 + BUTTON_SIZE) :
    a ≤ b := by
  by_contra hab
  push_neg at hab
  have hcast : (b : ℚ) + 1 ≤ (a : ℚ) := by exact_mod_cast hab
  unfold BUTTON_SIZE at ha hb
  norm_num at ha hb
  linarith

theorem pointWithinButton_unique {p : IPoint} {c r cc rr : ℕ}
    (h : pointWithinButton p (getButtonPosition c r) = true)
    (hh : pointWithinButton p (getButtonPosition cc rr) = true) :
    cc = c ∧ rr = r := by
  rw [pointWithinButton_iff] at h hh
  simp only [getButtonPosition] at h hh
  obtain ⟨h1, h2, h3, h4⟩ := h
  obtain ⟨g1, g2, g3, g4⟩ := hh
  exact ⟨le_antisymm (buttonIndex_le g1 h3) (buttonIndex_le h1 g3),
    le_antisymm (buttonIndex_le g2 h4) (buttonIndex_le h2 g4)⟩

theorem inside_cell_not_playBar {p : IPoint} {c r len : ℕ} (hr : r < len)
    (h : pointWithinButton p (getButtonPosition c r) = true) :
    ¬ p.y > playBarThreshold len := by
  rw [pointWithinButton_iff] at h
  simp only [getButtonPosition] at h
  obtain ⟨-, -, -, h4⟩ := h
  have hcast : (r : ℚ) + 1 ≤ (len : ℚ) := by exact_mod_cast hr
  rw [gt_iff_lt, not_lt]
  unfold playBarThreshold
  unfold BUTTON_SIZE at h4 ⊢
  norm_num at h4 ⊢
  linarith

theorem toggleTrackSteps_length (p : IPoint) (row : ℕ) :
    ∀ (c : ℕ) (l : List Bool), (toggleTrackSteps p row c l).length = l.length
  | _, [] => rfl
  | c, stepOn :: rest => by
    simp [toggleTrackSteps, toggleTrackSteps_length p row (c + 1) rest]

theorem toggleTrackSteps_getD (p : IPoint) (row : ℕ) :
    ∀ (c : ℕ) (l : List Bool) (i : ℕ), i < l.length →
      (toggleTrackSteps p row c l).getD i false =
        (if pointWithinButton p (getButtonPosition (c + i) row)
         then !(l.getD i false) else l.getD i false)
  | _, [], i, h => by simp at h
  | c, stepOn :: rest, 0, _ => by simp [toggleTrackSteps]
  | c, stepOn :: rest, i + 1, h => by
    have ih := toggleTrackSteps_getD p row (c + 1) rest i (by simpa using h)
    have hc : c + 1 + i = c + (i + 1) := by omega
    rw [toggleTrackSteps]
    simpa [hc] using ih

theorem toggleTrackSteps_id (p : IPoint) (row : ℕ) :
    ∀ (c : ℕ) (l : List Bool),
      (∀ i, i < l.length →
        pointWithinButton p (getButtonPosition (c + i) row) = false) →
      toggleTrackSteps p row c l = l
  | _, [], _ => rfl
  | c, stepOn :: rest, h => by
    have h0 := h 0 (by simp)
    rw [Nat.add_zero] at h0
    have htail : ∀ i, i < rest.length →
        pointWithinButton p (getButtonPosition (c + 1 + i) row) = false := by
      intro i hi
      have := h (i + 1) (by simpa using hi)
      rwa [show c + (i + 1) = c + 1 + i from by omega] at this
    simp [toggleTrackSteps, h0, toggleTrackSteps_id p row (c + 1) rest htail]

theorem toggleTrackSteps_involutive (p : IPoint) (row : ℕ) :
    ∀ (c : ℕ) (l : List Bool),
      toggleTrackSteps p row c (toggleTrackSteps p row c l) = l
  | _, [] => rfl
  | c, stepOn :: rest => by
    cases hpw : pointWithinButton p (getButtonPosition c row) <;>
      simp [toggleTrackSteps, hpw, toggleTrackSteps_involutive p row (c + 1) rest]

theorem toggleTracks_length (p : IPoint) :
    ∀ (r0 : ℕ) (l : List ISequencerTrack),
      (toggleTracks p r0 l).length = l.length
  | _, [] => rfl
  | r0, track :: rest => by
    simp [toggleTracks, toggleTracks_length p (r0 + 1) rest]

theorem toggleTracks_getD (p : IPoint) (d : ISequencerTrack) :
    ∀ (r0 : ℕ) (l : List ISequencerTrack) (i : ℕ), i < l.length →
      (toggleTracks p r0 l).getD i d =
        { l.getD i d with
          steps := toggleTrackSteps p (r0 + i) 0 (l.getD i d).steps }
  | _, [], i, h => by simp at h
  | r0, track :: rest, 0, _ => by simp [toggleTracks]
  | r0, track :: rest, i + 1, h => by
    have ih := toggleTracks_getD p d (r0 + 1) rest i (by simpa using h)
    have hr : r0 + 1 + i = r0 + (i + 1) := by omega
    rw [toggleTracks]
    simpa [hr] using ih

theorem toggleTracks_id (p : IPoint) (d : ISequencerTrack) :
    ∀ (r0 : ℕ) (l : List ISequencerTrack),
      (∀ r, r < l.length → ∀ i, i < ((l.getD r d).steps).length →
        pointWithinButton p (getButtonPosition i (r0 + r)) = false) →
      toggleTracks p r0 l = l
  | _, [], _ => rfl
  | r0, track :: rest, h => by
    have h0 : toggleTrackSteps p r0 0 track.steps = track.steps := by
      apply toggleTrackSteps_id
      intro i hi
      simpa using h 0 (by simp) i (by simpa using hi)
    have htail : ∀ r, r < rest.length →
        ∀ i, i < ((rest.getD r d).steps).length →
          pointWithinButton p (getButtonPosition i (r0 + 1 + r)) = false := by
      intro r hr i hi
      have := h (r + 1) (by simpa using hr) i (by simpa using hi)
      rwa [show r0 + (r + 1) = r0 + 1 + r from by omega] at this
    simp [toggleTracks, h0, toggleTracks_id p d (r0 + 1) rest htail]

theorem toggleTracks_involutive (p : IPoint) :
    ∀ (r0 : ℕ) (l : List ISequencerTrack),
      toggleTracks p r0 (toggleTracks p r0 l) = l
  | _, [] => rfl
  | r0, track :: rest => by
    simp [toggleTracks, toggleTrackSteps_involutive,
      toggleTracks_involutive p (r0 + 1) rest]

theorem nextStep_of_paused {s : ISequencerState} (h : s.paused = true) :
    nextStep s = (s, []) := by
  simp [nextStep, h]

theorem nextStep_of_unpaused {s : ISequencerState} (h : s.paused = false) :
    nextStep s =
      ({ s with step := (s.step + 1) % STEP_COUNT },
       s.tracks.filter
         (fun track => track.steps.getD ((s.step + 1) % STEP_COUNT) false)) := by
  simp [nextStep, h]

theorem nextStepN_succ (n : ℕ) (s : ISequencerState) :
    nextStepN (n + 1) s =
      ((nextStepN n (nextStep s).1).1,
       (nextStep s).2 ++ (nextStepN n (nextStep s).1).2) := rfl

theorem nextStepN_of_paused {s : ISequencerState} (h : s.paused = true) :
    ∀ n, nextStepN n s = (s, [])
  | 0 => rfl
  | n + 1 => by
    rw [nextStepN_succ, nextStep_of_paused h]
    simp [nextStepN_of_paused h n, nextStep_of_paused h]

theorem nextStepN_step_of_unpaused :
    ∀ (n : ℕ) (s : ISequencerState), s.paused = false → s.step < STEP_COUNT →
      (nextStepN n s).1.step = (s.step + n) % STEP_COUNT ∧
        (nextStepN n s).1.paused = false
  | 0, s, h, hs => by
    simpa [nextStepN, h] using (Nat.mod_eq_of_lt hs).symm
  | n + 1, s, h, hs => by
    have hstep : (nextStep s).1 = { s with step := (s.step + 1) % STEP_COUNT } := by
      rw [nextStep_of_unpaused h]
    have hlt : (s.step + 1) % STEP_COUNT < STEP_COUNT :=
      Nat.mod_lt _ (by norm_num [STEP_COUNT])
    have ih := nextStepN_step_of_unpaused n (nextStep s).1
      (by rw [hstep]; exact h) (by rw [hstep]; exact hlt)
    rw [nextStepN_succ]
    refine ⟨?_, ih.2⟩
    rw [ih.1, hstep]
    show ((s.step + 1) % STEP_COUNT + n) % STEP_COUNT = (s.step + (n + 1)) % STEP_COUNT
    unfold STEP_COUNT
    omega

theorem getD_of_length_le {α : Type _} (l : List α) (i : ℕ) (d : α)
    (h : l.length ≤ i) : l.getD i d = d := by
  simp [List.getD_eq_getElem?_getD, List.getElem?_eq_none h]

theorem handleClick_of_playBar {p : IPoint} {s : ISequencerState}
    (h : p.y > playBarThreshold s.tracks.length) :
    handleClick p s = { s with paused := !s.paused } := by
  simp [handleClick, h]

theorem handleClick_of_grid {p : IPoint} {s : ISequencerState}
    (h : ¬ p.y > playBarThreshold s.tracks.length) :
    handleClick p s = { s with tracks := toggleTracks p 0 s.tracks } := by
  simp [handleClick, h]

theorem handleClick_grid_getD (p : IPoint) (s : ISequencerState)
    (d : ISequencerTrack)
    (h : ¬ p.y > playBarThreshold s.tracks.length) :
    (handleClick p s).paused = s.paused ∧
    (handleClick p s).step = s.step ∧
    (handleClick p s).tracks.length = s.tracks.length ∧
    (∀ r,
      ((handleClick p s).tracks.getD r d).color = (s.tracks.getD r d).color ∧
      ((handleClick p s).tracks.getD r d).playSound =
        (s.tracks.getD r d).playSound ∧
      ((handleClick p s).tracks.getD r d).steps.length =
        (s.tracks.getD r d).steps.length) ∧
    (∀ r i,
      ((handleClick p s).tracks.getD r d).steps.getD i false =
        if pointWithinButton p (getButtonPosition i r) = true ∧
            r < s.tracks.length ∧ i < (s.tracks.getD r d).steps.length
        then !((s.tracks.getD r d).steps.getD i false)
        else (s.tracks.getD r d).steps.getD i false) := by
  rw [handleClick_of_grid h]
  have hlen : (toggleTracks p 0 s.tracks).length = s.tracks.length :=
    toggleTracks_length p 0 s.tracks
  have htrack : ∀ r, (toggleTracks p 0 s.tracks).getD r d =
      if r < s.tracks.length
      then { s.tracks.getD r d with
             steps := toggleTrackSteps p r 0 (s.tracks.getD r d).steps }
      else d := by
    intro r
    by_cases hr : r < s.tracks.length
    · rw [if_pos hr]
      have := toggleTracks_getD p d 0 s.tracks r hr
      rwa [Nat.zero_add] at this
    · rw [if_neg hr]
      exact getD_of_length_le _ _ _ (by omega)
  refine ⟨rfl, rfl, hlen, ?_, ?_⟩
  · intro r
    rw [show ({ s with tracks := toggleTracks p 0 s.tracks } :
        ISequencerState).tracks = toggleTracks p 0 s.tracks from rfl, htrack r]
    by_cases hr : r < s.tracks.length
    · rw [if_pos hr]
      exact ⟨rfl, rfl, toggleTrackSteps_length p r 0 _⟩
    · rw [if_neg hr, getD_of_length_le s.tracks r d (by omega)]
      exact ⟨rfl, rfl, rfl⟩
  · intro r i
    rw [show ({ s with tracks := toggleTracks p 0 s.tracks } :
        ISequencerState).tracks = toggleTracks p 0 s.tracks from rfl, htrack r]
    by_cases hr : r < s.tracks.length
    · rw [if_pos hr]
      by_cases hi : i < (s.tracks.getD r d).steps.length
      · have := toggleTrackSteps_getD p r 0 (s.tracks.getD r d).steps i hi
        rw [Nat.zero_add] at this
        rw [this]
        by_cases hpw : pointWithinButton p (getButtonPosition i r) = true
        · rw [if_pos hpw, if_pos ⟨hpw, hr, hi⟩]
        · rw [if_neg hpw, if_neg (by tauto)]
      · rw [getD_of_length_le _ i false
            (by rw [toggleTrackSteps_length]; omega),
          if_neg (by tauto),
          getD_of_length_le _ i false (by omega)]
    · rw [if_neg hr, getD_of_length_le s.tracks r d (by omega),
        if_neg (by tauto)]

theorem mem_toggleTracks_steps_length (p : IPoint) :
    ∀ (r0 : ℕ) (l : List ISequencerTrack) (t : ISequencerTrack),
      t ∈ toggleTracks p r0 l → ∃ t0 ∈ l, t.steps.length = t0.steps.length
  | _, [], t, h => by simp [toggleTracks] at h
  | r0, track :: rest, t, h => by
    rw [toggleTracks] at h
    rcases List.mem_cons.mp h with h1 | h2
    · exact ⟨track, List.mem_cons_self track rest,
        by rw [h1]; simpa using toggleTrackSteps_length p r0 0 track.steps⟩
    · obtain ⟨t0, ht0, hlen⟩ := mem_toggleTracks_steps_length p (r0 + 1) rest t h2
      exact ⟨t0, List.mem_cons_of_mem _ ht0, hlen⟩

theorem clear_getD {s : ISequencerState} {d : ISequencerTrack} {r : ℕ}
    (hr : r < s.tracks.length) :
    (clear s).tracks.getD r d =
      { s.tracks.getD r d with
        steps := (s.tracks.getD r d).steps.map (fun _ => false) } := by
  unfold clear
  rw [List.getD_eq_getElem?_getD, List.getD_eq_getElem?_getD, List.getElem?_map,
    List.getElem?_eq_getElem hr]
  simp

/-! ### Claim theorems -/

/-- C1: if paused is false, one call of nextStep sets step to
(step + 1) mod STEP_COUNT and then invokes playSound for exactly those
tracks whose steps entry at the new step is true, in track-list
declaration order; if paused is true, any number of ticks leaves the
state unchanged and invokes no trigger. -/
theorem nextStep_tick_spec (s : ISequencerState) :
    (s.paused = false →
      (nextStep s).1.step = (s.step + 1) % STEP_COUNT ∧
      (nextStep s).1.tracks = s.tracks ∧
      (nextStep s).1.paused = s.paused ∧
      (nextStep s).2 = s.tracks.filter
        (fun track => track.steps.getD ((s.step + 1) % STEP_COUNT) false)) ∧
    (s.paused = true → ∀ n, nextStepN n s = (s, [])) := by
  constructor
  · intro h
    rw [nextStep_of_unpaused h]
    exact ⟨rfl, rfl, rfl, rfl⟩
  · intro h n
    exact nextStepN_of_paused h n

/-- Witness for C1 at the startup state (paused) and its unpaused
variant. -/
theorem nextStep_tick_spec_witness :
    nextStepN 5 SEQUENCER_STATE = (SEQUENCER_STATE, []) ∧
    (nextStep { SEQUENCER_STATE with paused := false }).1.step =
      (SEQUENCER_STATE.step + 1) % STEP_COUNT :=
  ⟨(nextStep_tick_spec SEQUENCER_STATE).2 rfl 5,
   ((nextStep_tick_spec { SEQUENCER_STATE with paused := false }).1 rfl).1⟩

/-- C2: from an unpaused state with in-range step s, n ticks yield
step (s + n) mod STEP_COUNT; STEP_COUNT ticks return to s; one tick
from step 7 yields step 0 and fires every track whose step 0 is
true. -/
theorem stepAdvance_iterate_spec (s : ISequencerState)
    (h : s.paused = false) (hs : s.step < STEP_COUNT) :
    (∀ n, (nextStepN n s).1.step = (s.step + n) % STEP_COUNT) ∧
    (nextStepN STEP_COUNT s).1.step = s.step ∧
    (s.step = 7 →
      (nextStep s).1.step = 0 ∧
      (nextStep s).2 = s.tracks.filter
        (fun track => track.steps.getD 0 false)) := by
  have key := fun n => (nextStepN_step_of_unpaused n s h hs).1
  refine ⟨key, ?_, ?_⟩
  · rw [key STEP_COUNT, Nat.add_mod_right, Nat.mod_eq_of_lt hs]
  · intro h7
    have h0 : (s.step + 1) % STEP_COUNT = 0 := by rw [h7]; rfl
    rw [nextStep_of_unpaused h, h0]
    exact ⟨rfl, rfl⟩

/-- Witness for C2: a one-track unpaused state at step 7 whose step 0
is on wraps to step 0 and fires that track. -/
theorem stepAdvance_iterate_spec_witness :
    (nextStep
        { step := 7,
          tracks := [{ steps := [true, false, false, false, false, false,
            false, false], color := "gold", playSound := Sound.note 880 }],
          paused := false }).1.step = 0 ∧
    (nextStep
        { step := 7,
          tracks := [{ steps := [true, false, false, false, false, false,
            false, false], color := "gold", playSound := Sound.note 880 }],
          paused := false }).2 =
      List.filter (fun track => track.steps.getD 0 false)
        [{ steps := [true, false, false, false, false, false, false, false],
           color := "gold", playSound := Sound.note 880 }] :=
  (stepAdvance_iterate_spec _ rfl (by decide)).2.2 rfl

/-- C3: a click strictly below the play-bar threshold toggles paused
and changes nothing else; a click inside a cell of the grid toggles
exactly that cell and preserves paused, step and all track metadata; a
click above the play bar matching no cell changes nothing. -/
theorem clickHandler_spec (s : ISequencerState) (p : IPoint)
    (d : ISequencerTrack) :
    (p.y > playBarThreshold s.tracks.length →
      handleClick p s = { s with paused := !s.paused }) ∧
    (∀ r c, r < s.tracks.length → c < (s.tracks.getD r d).steps.length →
      pointWithinButton p (getButtonPosition c r) = true →
      (handleClick p s).paused = s.paused ∧
      (handleClick p s).step = s.step ∧
      (handleClick p s).tracks.length = s.tracks.length ∧
      (∀ rr,
        ((handleClick p s).tracks.getD rr d).color =
          (s.tracks.getD rr d).color ∧
        ((handleClick p s).tracks.getD rr d).playSound =
          (s.tracks.getD rr d).playSound ∧
        ((handleClick p s).tracks.getD rr d).steps.length =
          (s.tracks.getD rr d).steps.length) ∧
      (∀ rr cc,
        ((handleClick p s).tracks.getD rr d).steps.getD cc false =
          if rr = r ∧ cc = c
          then !((s.tracks.getD rr d).steps.getD cc false)
          else (s.tracks.getD rr d).steps.getD cc false)) ∧
    (¬ p.y > playBarThreshold s.tracks.length →
      (∀ r c, r < s.tracks.length → c < (s.tracks.getD r d).steps.length →
        pointWithinButton p (getButtonPosition c r) = false) →
      handleClick p s = s) := by
  refine ⟨fun h => handleClick_of_playBar h, ?_, ?_⟩
  · intro r c hr hc hin
    have hnp := inside_cell_not_playBar hr hin
    obtain ⟨c1, c2, c3, c4, c5⟩ := handleClick_grid_getD p s d hnp
    refine ⟨c1, c2, c3, c4, ?_⟩
    intro rr cc
    rw [c5 rr cc]
    by_cases hrc : rr = r ∧ cc = c
    · obtain ⟨hrr, hcc⟩ := hrc
      subst hrr
      subst hcc
      rw [if_pos ⟨hin, hr, hc⟩, if_pos ⟨rfl, rfl⟩]
    · rw [if_neg hrc, if_neg ?_]
      rintro ⟨hpw, -, -⟩
      obtain ⟨hcc, hrr⟩ := pointWithinButton_unique hin hpw
      exact hrc ⟨hrr, hcc⟩
  · intro hnp hnone
    rw [handleClick_of_grid hnp]
    rw [toggleTracks_id p d 0 s.tracks ?_]
    · intro r hrl i hil
      rw [Nat.zero_add]
      exact hnone r i hrl hil

/-- Witness for C3: at the startup state, a play-bar click at
(30, 380) toggles paused, and the in-cell click at (30, 30) leaves
paused unchanged. -/
theorem clickHandler_spec_witness :
    handleClick ⟨30, 380⟩ SEQUENCER_STATE =
      { SEQUENCER_STATE with paused := !SEQUENCER_STATE.paused } ∧
    (handleClick ⟨30, 30⟩ SEQUENCER_STATE).paused = SEQUENCER_STATE.paused :=
  ⟨(clickHandler_spec SEQUENCER_STATE ⟨30, 380⟩
      (createTrack "gold" Sound.kick)).1
      (by norm_num [SEQUENCER_STATE, createTrack, playBarThreshold, BUTTON_SIZE]),
   ((clickHandler_spec SEQUENCER_STATE ⟨30, 30⟩
      (createTrack "gold" Sound.kick)).2.1 0 0
      (by norm_num [SEQUENCER_STATE])
      (by norm_num [SEQUENCER_STATE, createTrack, STEP_COUNT])
      (by rw [pointWithinButton_iff]
          unfold getButtonPosition BUTTON_SIZE
          norm_num)).1⟩

/-- C4: clear sets every step of every track to false, preserving the
track count, each track's step count, and the step, paused, color and
playSound fields. -/
theorem clear_spec (s : ISequencerState) (d : ISequencerTrack) :
    (clear s).step = s.step ∧
    (clear s).paused = s.paused ∧
    (clear s).tracks.length = s.tracks.length ∧
    (∀ r,
      ((clear s).tracks.getD r d).color = (s.tracks.getD r d).color ∧
      ((clear s).tracks.getD r d).playSound =
        (s.tracks.getD r d).playSound ∧
      ((clear s).tracks.getD r d).steps.length =
        (s.tracks.getD r d).steps.length) ∧
    (∀ r c, r < s.tracks.length → c < (s.tracks.getD r d).steps.length →
      ((clear s).tracks.getD r d).steps.getD c false = false) := by
  refine ⟨rfl, rfl, by simp [clear], ?_, ?_⟩
  · intro r
    by_cases hr : r < s.tracks.length
    · rw [clear_getD hr]
      exact ⟨rfl, rfl, by simp⟩
    · rw [getD_of_length_le _ r d (by simp [clear]; omega),
        getD_of_length_le s.tracks r d (by omega)]
      exact ⟨rfl, rfl, rfl⟩
  · intro r c hr hc
    rw [clear_getD hr]
    have hc2 : c < ((s.tracks.getD r d).steps.map (fun _ => false)).length := by
      simpa using hc
    rw [List.getD_eq_getElem?_getD, List.getElem?_eq_getElem hc2]
    simp

/-- Witness for C4 at the startup state: after clear, track 0 step 0
is false. -/
theorem clear_spec_witness :
    ((clear SEQUENCER_STATE).tracks.getD 0
      (createTrack "gold" Sound.kick)).steps.getD 0 false = false :=
  (clear_spec SEQUENCER_STATE (createTrack "gold" Sound.kick)).2.2.2.2 0 0
    (by simp [SEQUENCER_STATE]) (by simp [SEQUENCER_STATE, createTrack, STEP_COUNT])

/-- C5: the invariant (step in range, every track with exactly
STEP_COUNT steps) holds initially and is preserved by nextStep, the
click handler and clear. -/
theorem invariant_spec :
    SequencerInvariant SEQUENCER_STATE ∧
    (∀ s, SequencerInvariant s → SequencerInvariant (nextStep s).1) ∧
    (∀ s p, SequencerInvariant s → SequencerInvariant (handleClick p s)) ∧
    (∀ s, SequencerInvariant s → SequencerInvariant (clear s)) := by
  refine ⟨⟨by norm_num [SEQUENCER_STATE, STEP_COUNT], ?_⟩, ?_, ?_, ?_⟩
  · intro t ht
    simp only [SEQUENCER_STATE] at ht
    fin_cases ht <;> simp [createTrack]
  · rintro s ⟨h1, h2⟩
    cases hp : s.paused
    · rw [nextStep_of_unpaused hp]
      exact ⟨Nat.mod_lt _ (by norm_num [STEP_COUNT]), h2⟩
    · rw [nextStep_of_paused hp]
      exact ⟨h1, h2⟩
  · rintro s p ⟨h1, h2⟩
    by_cases hy : p.y > playBarThreshold s.tracks.length
    · rw [handleClick_of_playBar hy]
      exact ⟨h1, h2⟩
    · rw [handleClick_of_grid hy]
      refine ⟨h1, ?_⟩
      intro t ht
      obtain ⟨t0, ht0, hlen⟩ := mem_toggleTracks_steps_length p 0 s.tracks t ht
      rw [hlen]
      exact h2 t0 ht0
  · rintro s ⟨h1, h2⟩
    refine ⟨h1, ?_⟩
    intro t ht
    simp only [clear, List.mem_map] at ht
    obtain ⟨a, ha, rfl⟩ := ht
    simp [h2 a ha]

/-- Witness for C5: the invariant of the cleared startup state,
obtained by applying the preservation part to the initial state. -/
theorem invariant_spec_witness :
    SequencerInvariant (clear SEQUENCER_STATE) :=
  invariant_spec.2.2.2 SEQUENCER_STATE invariant_spec.1

/-- C6: delivering the same in-cell click twice restores the cell and
the whole state. -/
theorem toggleTwice_spec (s : ISequencerState) (p : IPoint)
    (d : ISequencerTrack) (r c : ℕ) (hr : r < s.tracks.length)
    (_hc : c < (s.tracks.getD r d).steps.length)
    (hin : pointWithinButton p (getButtonPosition c r) = true) :
    ((handleClick p (handleClick p s)).tracks.getD r d).steps.getD c false =
      (s.tracks.getD r d).steps.getD c false ∧
    handleClick p (handleClick p s) = s := by
  have hnp := inside_cell_not_playBar hr hin
  have e1 : handleClick p s = { s with tracks := toggleTracks p 0 s.tracks } :=
    handleClick_of_grid hnp
  have hnp2 : ¬ p.y > playBarThreshold
      ({ s with tracks := toggleTracks p 0 s.tracks } :
        ISequencerState).tracks.length := by
    show ¬ p.y > playBarThreshold (toggleTracks p 0 s.tracks).length
    rwa [toggleTracks_length]
  have e2 := handleClick_of_grid hnp2
  have key : handleClick p (handleClick p s) = s := by
    rw [e1, e2]
    show ({ s with
      tracks := toggleTracks p 0 (toggleTracks p 0 s.tracks) } :
        ISequencerState) = s
    rw [toggleTracks_involutive]
  exact ⟨by rw [key], key⟩

/-- Witness for C6: double click at (30, 30) on the startup state is
the identity. -/
theorem toggleTwice_spec_witness :
    handleClick ⟨30, 30⟩ (handleClick ⟨30, 30⟩ SEQUENCER_STATE) =
      SEQUENCER_STATE :=
  (toggleTwice_spec SEQUENCER_STATE ⟨30, 30⟩ (createTrack "gold" Sound.kick)
    0 0 (by norm_num [SEQUENCER_STATE])
    (by norm_num [SEQUENCER_STATE, createTrack, STEP_COUNT])
    (by rw [pointWithinButton_iff]
        unfold getButtonPosition BUTTON_SIZE
        norm_num)).2

/-- C7: with buttonSize 39, cell (column 0, row 0) has top-left
(19.5, 19.5); a point is inside it iff
not(x < 19.5 or y < 19.5 or x > 58.5 or y > 58.5) (inclusive at the
edges); a click at (30, 30) toggles that cell and a click at (19, 19)
toggles nothing. -/
theorem cellGeometry_spec (d : ISequencerTrack) :
    getButtonPosition 0 0 = ⟨19.5, 19.5⟩ ∧
    (∀ p : IPoint,
      pointWithinButton p (getButtonPosition 0 0) = true ↔
        ¬(p.x < 19.5 ∨ p.y < 19.5 ∨ p.x > 58.5 ∨ p.y > 58.5)) ∧
    pointWithinButton ⟨30, 30⟩ (getButtonPosition 0 0) = true ∧
    pointWithinButton ⟨19, 19⟩ (getButtonPosition 0 0) = false ∧
    ((handleClick ⟨30, 30⟩ SEQUENCER_STATE).tracks.getD 0 d).steps.getD 0
        false = true ∧
    (handleClick ⟨30, 30⟩ SEQUENCER_STATE).paused = SEQUENCER_STATE.paused ∧
    (∀ r c, ¬(r = 0 ∧ c = 0) →
      ((handleClick ⟨30, 30⟩ SEQUENCER_STATE).tracks.getD r d).steps.getD c
          false =
        (SEQUENCER_STATE.tracks.getD r d).steps.getD c false) ∧
    handleClick ⟨19, 19⟩ SEQUENCER_STATE = SEQUENCER_STATE := by
  have hin30 : pointWithinButton ⟨30, 30⟩ (getButtonPosition 0 0) = true := by
    rw [pointWithinButton_iff]
    unfold getButtonPosition BUTTON_SIZE
    norm_num
  have hnp30 : ¬ (⟨30, 30⟩ : IPoint).y >
      playBarThreshold SEQUENCER_STATE.tracks.length := by
    norm_num [SEQUENCER_STATE, createTrack, playBarThreshold, BUTTON_SIZE]
  obtain ⟨c1, -, -, -, c5⟩ :=
    handleClick_grid_getD ⟨30, 30⟩ SEQUENCER_STATE d hnp30
  refine ⟨?_, ?_, hin30, ?_, ?_, c1, ?_, ?_⟩
  · unfold getButtonPosition BUTTON_SIZE
    norm_num
  · intro p
    rw [pointWithinButton_iff]
    unfold getButtonPosition BUTTON_SIZE
    push_neg
    norm_num
  · apply Bool.eq_false_iff.mpr
    intro hcontra
    rw [pointWithinButton_iff] at hcontra
    unfold getButtonPosition BUTTON_SIZE at hcontra
    norm_num at hcontra
  · rw [c5 0 0, if_pos ⟨hin30, by norm_num [SEQUENCER_STATE],
      by norm_num [SEQUENCER_STATE, createTrack, STEP_COUNT]⟩]
    rfl
  · intro r c hrc
    rw [c5 r c, if_neg ?_]
    rintro ⟨hpw, -, -⟩
    obtain ⟨hcc, hrr⟩ := pointWithinButton_unique hin30 hpw
    exact hrc ⟨hrr, hcc⟩
  · have hall : ∀ (c r : ℕ),
        pointWithinButton ⟨19, 19⟩ (getButtonPosition c r) = false := by
      intro c r
      apply Bool.eq_false_iff.mpr
      intro hcontra
      rw [pointWithinButton_iff] at hcontra
      unfold getButtonPosition BUTTON_SIZE at hcontra
      obtain ⟨h1, -, -, -⟩ := hcontra
      have hc0 : (0 : ℚ) ≤ (c : ℚ) * 39 * 1.5 := by positivity
      norm_num at h1
      linarith
    have hnp19 : ¬ (⟨19, 19⟩ : IPoint).y >
        playBarThreshold SEQUENCER_STATE.tracks.length := by
      norm_num [SEQUENCER_STATE, createTrack, playBarThreshold, BUTTON_SIZE]
    rw [handleClick_of_grid hnp19,
      toggleTracks_id ⟨19, 19⟩ d 0 SEQUENCER_STATE.tracks
        (fun r _ i _ => hall i (0 + r))]

/-- Witness for C7: the two geometric facts instantiated with a
concrete default track, plus the unchanged cell (1, 1). -/
theorem cellGeometry_spec_witness :
    ((handleClick ⟨30, 30⟩ SEQUENCER_STATE).tracks.getD 1
        (createTrack "gold" Sound.kick)).steps.getD 1 false =
      (SEQUENCER_STATE.tracks.getD 1
        (createTrack "gold" Sound.kick)).steps.getD 1 false :=
  ((cellGeometry_spec (createTrack "gold" Sound.kick)).2.2.2.2.2.2.1 1 1
    (by simp))

/-- C8 counterexample: with the audio context absent, invoking a
trigger does not silently succeed; it raises a TypeError. -/
theorem audioAbsent_counterexample :
    note none 880 = Except.error "TypeError" ∧
    kick none = Except.error "TypeError" :=
  ⟨rfl, rfl⟩

/-- C8 (amended): with the audio context absent, invoking any track's
trigger raises an error (the code calls createOscillator on the absent
context with no guard); with a context present (running or suspended)
the trigger builds its sound graph without error; and the step advance
of an unpaused tick happens regardless, before any trigger runs. -/
theorem audioUnavailable_amended :
    (∀ snd : Sound, ∃ e, invokeTrigger none snd = Except.error e) ∧
    (∀ (ctx : AudioCtx) (f : ℚ),
      (note (some ctx) f).isOk = true ∧ (kick (some ctx)).isOk = true) ∧
    (∀ s : ISequencerState, s.paused = false →
      (nextStep s).1.step = (s.step + 1) % STEP_COUNT ∧
      (nextStep s).1.tracks = s.tracks) := by
  refine ⟨?_, ?_, ?_⟩
  · rintro (f | _) <;> exact ⟨"TypeError", rfl⟩
  · intro ctx f
    exact ⟨rfl, rfl⟩
  · intro s h
    rw [nextStep_of_unpaused h]
    exact ⟨rfl, rfl⟩

/-- Witness for C8 (amended) at concrete inputs. -/
theorem audioUnavailable_amended_witness :
    (∃ e, invokeTrigger none Sound.kick = Except.error e) ∧
    (note (some { currentTime := 0, state := "suspended" }) 880).isOk =
      true ∧
    (nextStep { SEQUENCER_STATE with paused := false }).1.tracks =
      SEQUENCER_STATE.tracks :=
  ⟨audioUnavailable_amended.1 Sound.kick,
   (audioUnavailable_amended.2.1 { currentTime := 0, state := "suspended" }
     880).1,
   (audioUnavailable_amended.2.2 { SEQUENCER_STATE with paused := false }
     rfl).2⟩

/-- C9: the play-bar hit threshold equals the y-coordinate of the
playhead-indicator row drawn at row = trackCount, as an exact
arithmetic identity for every trackCount and every button size. -/
theorem playBarGeometry_spec :
    (∀ (b : ℚ) (trackCount : ℕ),
      b * trackCount * 1.5 + b / 2 = b / 2 + trackCount * b * 1.5) ∧
    (∀ (column trackCount : ℕ),
      playBarThreshold trackCount =
        (getButtonPosition column trackCount).y) := by
  constructor
  · intro b t
    ring
  · intro column t
    show BUTTON_SIZE * t * 1.5 + BUTTON_SIZE / 2 =
      BUTTON_SIZE / 2 + t * BUTTON_SIZE * 1.5
    ring

/-- C10: the startup state is paused at step 0, all 6 tracks have all
steps false, and no tick advances the step or fires a trigger until
paused is cleared. -/
theorem initialState_spec :
    SEQUENCER_STATE.paused = true ∧
    SEQUENCER_STATE.step = 0 ∧
    SEQUENCER_STATE.tracks.length = 6 ∧
    (∀ t ∈ SEQUENCER_STATE.tracks, ∀ b ∈ t.steps, b = false) ∧
    (∀ n, nextStepN n SEQUENCER_STATE = (SEQUENCER_STATE, [])) := by
  refine ⟨rfl, rfl, rfl, ?_, fun n => nextStepN_of_paused rfl n⟩
  intro t ht
  simp only [SEQUENCER_STATE] at ht
  fin_cases ht <;>
    · intro b hb
      simp only [createTrack, List.mem_replicate] at hb
      exact hb.2

/-- Witness for C10: three paused ticks leave the startup state
untouched, and step 0 of the first track is off. -/
theorem initialState_spec_witness :
    nextStepN 3 SEQUENCER_STATE = (SEQUENCER_STATE, []) ∧ false = false :=
  ⟨initialState_spec.2.2.2.2 3,
   initialState_spec.2.2.2.1 (createTrack "gold" (Sound.note 880))
     (by simp [SEQUENCER_STATE]) false (by decide)⟩

end DrumMachine
